import Mathlib

/-!
Verification of the DockuChat backend (src/Backend/rag_pipeline.py and
src/Backend/api.py) against its natural-language specification.

The Python source is shallowly embedded: pure helpers become Lean
functions, the ChromaDB collection is a list of stored entries, the
external capabilities (table summarization, image description, the
cross-encoder, the generation model, the text splitter) are passed in as
function parameters, and Python exception flow is modelled with
Except.
-/

namespace DockuChat

/-! ## Collection naming (rag_pipeline.sanitize_filename_for_collection) -/

/-- Python single-character str.replace: replacing every occurrence of the
one-character pattern old with the one-character string new is the
character-wise map. -/
def replaceChar (s : List Char) (old new : Char) : List Char :=
  s.map fun c => if c = old then new else c

/-- Embedding of sanitize_filename_for_collection: the source computes
filename.replace(space, underscore).replace(period, underscore) and
prepends the constant prefix. -/
def sanitize_filename_for_collection (filename : String) : String :=
  "rag_" ++ String.mk (replaceChar (replaceChar filename.data ' ' '_') '.' '_')

/-- The substitution rule as the spec words it: replace every space and
every period with an underscore in a single pass, then prepend the
prefix. Stated from the spec, to be compared with the embedding above. -/
def specNameRule (filename : String) : String :=
  "rag_" ++ String.mk (filename.data.map fun c => if c = ' ' ∨ c = '.' then '_' else c)

/-! ## Vector store and deletion (rag_pipeline.delete_document_vectors) -/

/-- Metadata stored with every chunk: the source field (filename for
text and table chunks, extracted image path for image chunks) and the
kind tag (text, table_summary or image_description). -/
structure ChunkMetadata where
  source : String
  kind : String
deriving DecidableEq, Repr

/-- One stored vector entry of a Chroma collection: its id and its
metadata, as returned by vector_store.get(include=[metadatas]). -/
structure StoredEntry where
  id : String
  metadata : ChunkMetadata
deriving DecidableEq, Repr

/-- State of the per-document Chroma collection. The failing flag models
a vector store that is unavailable or whose delete write fails: every
store operation inside the try block then raises. -/
structure ChromaState where
  entries : List StoredEntry
  failing : Bool
deriving DecidableEq, Repr

/-- Body of the try block of delete_document_vectors: connect to the
collection, fetch all ids and metadatas, select the ids whose metadata
source equals the filename, and delete them. A failing store raises. -/
def deleteTryBody (filename : String) (st : ChromaState) :
    ChromaState × Except String Unit :=
  if st.failing then
    (st, .error "StorageError")
  else if st.entries.isEmpty then
    -- "if not all_docs or not all_docs[ids]": nothing to delete
    (st, .ok ())
  else
    let idsToDelete :=
      (st.entries.filter fun e => e.metadata.source = filename).map (·.id)
    if idsToDelete.isEmpty then
      (st, .ok ())
    else
      ({ st with
          entries := st.entries.filter fun e => ¬ e.id ∈ idsToDelete },
        .ok ())

/-- Embedding of delete_document_vectors: the whole body runs inside
try/except, and the except branch only prints the error, so the function
always returns normally and always returns None (no count). -/
def delete_document_vectors (filename : String) (st : ChromaState) :
    ChromaState × Except String Unit :=
  match deleteTryBody filename st with
  | (st1, .ok a) => (st1, .ok a)
  | (st1, .error _) => (st1, .ok ())

/-! ## Two-stage retrieval (rag_pipeline.create_rag_chain, rerank_docs) -/

/-- Order used by doc_scores.sort(key=lambda x: x[1], reverse=True):
a pair comes before another when its score is at least as large.
Python list.sort is stable also with reverse=True, which is exactly
insertion with this non-strict relation. Scores are modelled as
integers. -/
def scoreGE (a b : String × Int) : Prop := b.2 ≤ a.2

instance : DecidableRel scoreGE := fun a b => inferInstanceAs (Decidable (b.2 ≤ a.2))

instance : IsTotal (String × Int) scoreGE :=
  ⟨fun a b => Int.le_total b.2 a.2⟩

instance : IsTrans (String × Int) scoreGE :=
  ⟨fun _ _ _ h1 h2 => le_trans h2 h1⟩

/-- The doc_scores list of rerank_docs after sorting: each candidate
content is paired with its cross-encoder score for the query, then the
pairs are stable-sorted descending by score. The cross-encoder is the
score parameter. -/
def rerankPairs (score : String → String → Int) (question : String)
    (docs : List String) : List (String × Int) :=
  List.insertionSort scoreGE (docs.map fun d => (d, score question d))

/-- Embedding of rerank_docs: score every Stage-1 candidate with the
cross-encoder, stable-sort descending by score, keep the first 5, and
return the documents without their scores. -/
def rerank_docs (score : String → String → Int) (question : String)
    (docs : List String) : List String :=
  ((rerankPairs score question docs).take 5).map Prod.fst

/-- Cross-encoder model used in the concrete witnesses: the score of a
candidate is its length. -/
def scoreByLength : String → String → Int := fun _ d => (d.length : Int)

/-! ## Ingestion (rag_pipeline.process_and_store_document) -/

/-- A typed element produced by partitioning the document: a table with
its HTML representation, an image with its extracted path, or flowing
text. -/
inductive PipelineElement where
  | table (html : String)
  | image (imagePath : String)
  | textEl (content : String)
deriving DecidableEq, Repr

/-- A langchain Document as built by the ingestion loop: page content
plus source/kind metadata. -/
structure RagDocument where
  page_content : String
  metadata : ChunkMetadata
deriving DecidableEq, Repr

/-- Effect of the loop body on one element. A table is summarized by the
summarize capability; failure of that call is not caught, so it
propagates. An image is read and described by the describe capability
inside try/except, so failure yields no document and no error; on
success the stored source is the extracted image path, not the
filename. Any other element contributes its text plus a paragraph
separator to raw_text. -/
def elementStep (summarize describe : String → Except String String)
    (filename : String) : PipelineElement →
    Except String (List RagDocument × String)
  | .table html =>
    match summarize html with
    | .ok summary => .ok ([⟨summary, ⟨filename, "table_summary"⟩⟩], "")
    | .error e => .error e
  | .image imagePath =>
    match describe imagePath with
    | .ok description => .ok ([⟨description, ⟨imagePath, "image_description"⟩⟩], "")
    | .error _ => .ok ([], "")
  | .textEl content => .ok ([], content ++ "\n\n")

/-- The element loop of process_and_store_document: accumulates
documents_to_embed in element order and raw_text by concatenation,
stopping at the first uncaught error. -/
def processElements (summarize describe : String → Except String String)
    (filename : String) : List PipelineElement →
    Except String (List RagDocument × String)
  | [] => .ok ([], "")
  | e :: es =>
    match elementStep summarize describe filename e with
    | .error err => .error err
    | .ok (docs, txt) =>
      match processElements summarize describe filename es with
      | .error err => .error err
      | .ok (docsRest, txtRest) => .ok (docs ++ docsRest, txt ++ txtRest)

/-- Embedding of process_and_store_document up to the vector-store
write: run the element loop, then chunk the accumulated raw text with
the splitter and append one text document per chunk. The result is the
documents_to_embed list handed to vector_store.add_documents. -/
def process_and_store_document (summarize describe : String → Except String String)
    (splitter : String → List String) (filename : String)
    (elements : List PipelineElement) : Except String (List RagDocument) :=
  match processElements summarize describe filename elements with
  | .error err => .error err
  | .ok (docs, rawText) =>
    .ok (docs ++ (splitter rawText).map fun chunk => ⟨chunk, ⟨filename, "text"⟩⟩)

/-- The HTML payloads of the table elements of a document. -/
def tableHtmls (elements : List PipelineElement) : List String :=
  elements.filterMap fun e =>
    match e with
    | .table html => some html
    | _ => none

/-- Per-element contribution to documents_to_embed: the summary for a
table, the description for a successfully described image, nothing for
a failed image or for text. -/
def elementDocs (summarize describe : String → Except String String)
    (filename : String) : PipelineElement → List RagDocument
  | .table html =>
    match summarize html with
    | .ok summary => [⟨summary, ⟨filename, "table_summary"⟩⟩]
    | .error _ => []
  | .image imagePath =>
    match describe imagePath with
    | .ok description => [⟨description, ⟨imagePath, "image_description"⟩⟩]
    | .error _ => []
  | .textEl _ => []

/-- The raw_text accumulated by the loop: the text elements in order,
each followed by a paragraph separator. -/
def rawTextOf : List PipelineElement → String
  | [] => ""
  | .textEl content :: es => content ++ "\n\n" ++ rawTextOf es
  | .table _ :: es => rawTextOf es
  | .image _ :: es => rawTextOf es

/-! ## HTTP boundary (api.upload_file, api.query_document) -/

/-- Errors the API layer raises: HTTPException with status 409, 404
or 500. The 404 raised before any retrieval work is the not-found
condition the spec calls CollectionNotFoundError. -/
inductive ApiError where
  | conflict (detail : String)
  | notFound (detail : String)
  | internal (detail : String)
deriving DecidableEq, Repr

/-- The API-visible state: the filenames present in the upload
directory, as os.listdir and os.path.exists see it. Presence of a
filename does not imply it was ingested: besides uploaded documents,
partition deposits extracted image files into this same directory
during ingestion of a PDF, and a failed save can leave a partial file
behind, so the directory can hold filenames that own no collection. -/
structure ApiState where
  files : List String
deriving DecidableEq, Repr

/-- Embedding of api.upload_file: if a file with this name already
exists the request is rejected with 409 before the file is written and
before the ingestion pipeline (the ingest parameter) runs; otherwise the
file is saved and ingested, and on ingestion failure the file is removed
again. -/
def upload_file (ingest : String → Except String Unit) (st : ApiState)
    (filename : String) : ApiState × Except ApiError String :=
  if filename ∈ st.files then
    (st, .error (.conflict "File with this name already exists."))
  else
    match ingest filename with
    | .ok _ => (⟨st.files ++ [filename]⟩, .ok "Successfully uploaded and processed.")
    | .error e => (st, .error (.internal ("Failed to process and ingest document: " ++ e)))

/-- Embedding of api.query_document: if the uploaded file does not
exist the request fails with 404 before the RAG chain (the chain
parameter, covering retrieval, re-ranking and generation) is built or
invoked; otherwise the chain is invoked on the query. -/
def query_document (chain : String → Except String String) (st : ApiState)
    (filename query : String) : Except ApiError String :=
  if filename ∈ st.files then
    match chain query with
    | .ok answer => .ok answer
    | .error e => .error (.internal ("Error during query processing: " ++ e))
  else
    .error (.notFound "Document not found.")

/-- Data flow of the chain built by create_rag_chain, with the
external capabilities as parameters: the retriever fetches the Stage-1
candidates for the query (k=25 similarity search over the collection
named after the filename), rerank_docs keeps the top 5, their contents
are joined with blank lines into the context block, and the generation
model is invoked on context and question. Chroma get-or-creates the
collection, so for a filename that was never ingested the retriever
runs over an empty collection and returns no candidates, and the model
is invoked on an empty context. -/
def rag_chain_invoke (retrieve : String → List String)
    (score : String → String → Int)
    (generate : String → String → Except String String)
    (query : String) : Except String String :=
  generate (String.intercalate "\n\n" (rerank_docs score query (retrieve query))) query

/-- Generation model used in the C4 counterexample: on an empty context
it answers the insufficiency sentence the prompt template asks for,
still an ordinary answer rather than an error. -/
def generateEmptyAware : String → String → Except String String :=
  fun context _ =>
    .ok (if context = "" then "Insufficient information." else "Some answer.")

/-! ## Text chunking -/

/-- Worker for the splitter, structurally recursive on fuel: a text of
at most 750 characters is one chunk; otherwise emit the first 750
characters and continue after the first 650, so consecutive windows
share 100 characters. -/
def splitTextGo : Nat → List Char → List (List Char)
  | 0, s => [s]
  | fuel + 1, s =>
    if s.length ≤ 750 then [s]
    else s.take 750 :: splitTextGo fuel (s.drop 650)

/-- Modelled from the spec: the text splitter used at ingestion,
RecursiveCharacterTextSplitter(chunk_size=750, chunk_overlap=100), is
third-party library code whose source is not part of this repository.
The spec describes it as splitting the raw text into overlapping
windows of target size 750 characters with a 100-character overlap
between consecutive windows, which this sliding-window splitter
realizes. -/
def split_text (s : List Char) : List (List Char) :=
  splitTextGo s.length s

/-! ## Theorems -/

/-- C7: Collection naming is a pure, deterministic function of the
filename: for every filename f, name(f) equals the result of replacing
every space and every period in f with an underscore and prepending the
constant prefix rag_, so repeated calls always return the same
identifier; in particular name("My Report.pdf") = "rag_My_Report_pdf". -/
theorem c7_collection_naming_rule (f : String) :
    sanitize_filename_for_collection f = sanitize_filename_for_collection f
    ∧ sanitize_filename_for_collection f = specNameRule f
    ∧ sanitize_filename_for_collection "My Report.pdf" = "rag_My_Report_pdf" := by
  refine ⟨rfl, ?_, by decide⟩
  unfold sanitize_filename_for_collection specNameRule replaceChar
  rw [List.map_map]
  congr 2
  refine List.map_congr_left fun c _ => ?_
  by_cases h1 : c = ' '
  · subst h1; decide
  · by_cases h2 : c = '.'
    · subst h2; decide
    · simp [Function.comp, h1, h2]

/-- C8 counterexample: the naming function is not injective on distinct
filenames: the distinct filenames a.pdf and a pdf map to the same
collection identifier. -/
theorem c8_naming_collision :
    ("a.pdf" : String) ≠ "a pdf"
    ∧ sanitize_filename_for_collection "a.pdf"
        = sanitize_filename_for_collection "a pdf" := by
  exact ⟨by decide, by decide⟩

/-- C8 amended: the naming function is injective on filenames that
contain neither a space nor a period; in general two distinct uploaded
filenames can collide on the same collection identifier, as the
substitution collapses space, period and underscore. -/
theorem c8_naming_injective_on_clean_filenames (f g : String)
    (hf : ∀ c ∈ f.data, c ≠ ' ' ∧ c ≠ '.')
    (hg : ∀ c ∈ g.data, c ≠ ' ' ∧ c ≠ '.')
    (h : sanitize_filename_for_collection f = sanitize_filename_for_collection g) :
    f = g := by
  have clean : ∀ s : List Char, (∀ c ∈ s, c ≠ ' ' ∧ c ≠ '.') →
      replaceChar (replaceChar s ' ' '_') '.' '_' = s := by
    intro s hs
    unfold replaceChar
    rw [List.map_map]
    calc List.map ((fun c => if c = '.' then '_' else c) ∘
            fun c => if c = ' ' then '_' else c) s
        = List.map id s := by
          refine List.map_congr_left fun c hc => ?_
          simp [Function.comp, (hs c hc).1, (hs c hc).2]
      _ = s := List.map_id s
  unfold sanitize_filename_for_collection at h
  have hdata := congrArg String.data h
  rw [String.data_append, String.data_append] at hdata
  have hlists := List.append_cancel_left hdata
  apply String.ext
  calc f.data = replaceChar (replaceChar f.data ' ' '_') '.' '_' := (clean f.data hf).symm
    _ = replaceChar (replaceChar g.data ' ' '_') '.' '_' := hlists
    _ = g.data := clean g.data hg

/-- C8 amended witness. -/
theorem c8_naming_injective_witness : ("a_pdf" : String) = "a_pdf" :=
  c8_naming_injective_on_clean_filenames "a_pdf" "a_pdf" (by decide) (by decide) rfl

/-- C9: Re-ingesting an already-uploaded filename is rejected at the
upload boundary before any pipeline work: if a file with that name
already exists, the upload is refused with a 409 conflict, the state is
unchanged, and the result does not depend on the ingestion pipeline, so
no extraction, embedding or vector-store write occurs. -/
theorem c9_reupload_rejected_before_pipeline (ingest : String → Except String Unit)
    (st : ApiState) (filename : String) (h : filename ∈ st.files) :
    upload_file ingest st filename
      = (st, .error (.conflict "File with this name already exists.")) := by
  simp [upload_file, h]

/-- C9 witness. -/
theorem c9_reupload_rejected_witness :
    upload_file (fun _ => .ok ()) ⟨["notes.txt"]⟩ "notes.txt"
      = (⟨["notes.txt"]⟩, .error (.conflict "File with this name already exists.")) :=
  c9_reupload_rejected_before_pipeline (fun _ => .ok ()) ⟨["notes.txt"]⟩ "notes.txt"
    (by decide)

/-- C4 counterexample: a filename that was never ingested can be
silently answered from an empty context. During ingestion of a PDF,
partition writes extracted image files such as figure-1-1.jpg into the
upload directory, so that filename passes the exists check of
query_document although it was never ingested and owns no vectors; the
chain then runs over the empty get-or-created collection, the retriever
returns no candidates, and the generation model is invoked on an empty
context, producing an ordinary 200 answer instead of the not-found
condition the claim requires. -/
theorem c4_uningested_file_silently_answered :
    query_document
        (rag_chain_invoke (fun _ => ([] : List String)) scoreByLength generateEmptyAware)
        ⟨["figure-1-1.jpg"]⟩ "figure-1-1.jpg" "what is in the figure?"
      = .ok "Insufficient information." := by
  rfl

/-- C4 amended: querying a filename whose file is absent from the
upload directory fails with the not-found condition before the RAG
chain is built or invoked: the outcome is the 404 error for every
possible chain, so no answer is synthesized. File absence is not
equivalent to never-ingested, because partition deposits extracted
image files into the upload directory and a failed save can leave a
partial file; a never-ingested filename whose file is present is not
rejected but answered from an empty collection. -/
theorem c4_query_missing_document_not_found (chain : String → Except String String)
    (st : ApiState) (filename query : String) (h : ¬ filename ∈ st.files) :
    query_document chain st filename query = .error (.notFound "Document not found.")
    ∧ ∀ answer, query_document chain st filename query ≠ .ok answer := by
  have hq : query_document chain st filename query
      = .error (.notFound "Document not found.") := by
    simp [query_document, h]
  exact ⟨hq, fun answer hcontra => by rw [hq] at hcontra; exact Except.noConfusion hcontra⟩

/-- C4 witness. -/
theorem c4_query_missing_document_witness :
    query_document (fun _ => .ok "answer") ⟨["notes.txt"]⟩ "ghost.pdf" "what?"
      = .error (.notFound "Document not found.") :=
  (c4_query_missing_document_not_found (fun _ => .ok "answer") ⟨["notes.txt"]⟩
    "ghost.pdf" "what?" (by decide)).1

/-- Concrete failing-store state used to refute C3. -/
def c3FailingState : ChromaState :=
  ⟨[⟨"id1", ⟨"a.pdf", "text"⟩⟩], true⟩

/-- C3 counterexample: when the vector store is unavailable or the
delete write fails, delete_document_vectors does not raise StorageError:
the except branch swallows the error, the call returns normally, and it
returns None rather than a count of removed vectors. -/
theorem c3_delete_swallows_storage_error :
    c3FailingState.failing = true
    ∧ delete_document_vectors "a.pdf" c3FailingState = (c3FailingState, .ok ()) :=
  ⟨rfl, rfl⟩

/-- C3 amended: delete(filename) always returns normally and returns
None, never a count of removed vectors; when the collection holds zero
entries matching the filename it is a no-op that raises nothing; and
when the vector store is unavailable or the delete write fails the
exception is caught and suppressed, so nothing is raised to the
caller. -/
theorem c3_delete_never_raises (filename : String) (st : ChromaState) :
    (delete_document_vectors filename st).2 = .ok ()
    ∧ (st.failing = false →
        (∀ e ∈ st.entries, e.metadata.source ≠ filename) →
        delete_document_vectors filename st = (st, .ok ())) := by
  constructor
  · unfold delete_document_vectors deleteTryBody
    by_cases hfail : st.failing
    · simp [hfail]
    · by_cases hemp : st.entries.isEmpty
      · simp [hfail, hemp]
      · by_cases hids : ((st.entries.filter fun e =>
            e.metadata.source = filename).map (·.id)).isEmpty
        · simp [hfail, hemp, hids]
        · simp [hfail, hemp, hids]
  · intro hfail hnone
    have hfilter : (st.entries.filter fun e => e.metadata.source = filename) = [] := by
      rw [List.filter_eq_nil_iff]
      intro e he
      simpa using hnone e he
    unfold delete_document_vectors deleteTryBody
    by_cases hemp : st.entries.isEmpty
    · simp [hfail, hemp]
    · simp [hfail, hemp, hfilter]

/-- C3 amended witness. -/
theorem c3_delete_never_raises_witness :
    delete_document_vectors "ghost.pdf" ⟨[⟨"id1", ⟨"other.pdf", "text"⟩⟩], false⟩
      = (⟨[⟨"id1", ⟨"other.pdf", "text"⟩⟩], false⟩, .ok ()) :=
  (c3_delete_never_raises "ghost.pdf" ⟨[⟨"id1", ⟨"other.pdf", "text"⟩⟩], false⟩).2
    rfl (by decide)

/-- Helper for C1: on a working store with distinct entry ids, deletion
leaves exactly the entries whose metadata source differs from the
filename, in their original order. -/
theorem delete_entries_eq_filter (filename : String) (st : ChromaState)
    (hnodup : (st.entries.map (·.id)).Nodup) (hok : st.failing = false) :
    ((delete_document_vectors filename st).1).entries
      = st.entries.filter fun e => ¬ e.metadata.source = filename := by
  unfold delete_document_vectors deleteTryBody
  by_cases hemp : st.entries.isEmpty
  · have : st.entries = [] := List.isEmpty_iff.mp hemp
    simp [hok, hemp, this]
  · by_cases hids : ((st.entries.filter fun e =>
        e.metadata.source = filename).map (·.id)).isEmpty
    · have hfilter : (st.entries.filter fun e => e.metadata.source = filename) = [] := by
        have := List.isEmpty_iff.mp hids
        exact List.map_eq_nil_iff.mp this
      have hnone : ∀ e ∈ st.entries, ¬ e.metadata.source = filename := by
        intro e he
        have := List.filter_eq_nil_iff.mp hfilter e he
        simpa using this
      have hself : (st.entries.filter fun e => !decide (e.metadata.source = filename))
          = st.entries := by
        rw [List.filter_eq_self]
        intro e he
        simpa using hnone e he
      simp [hok, hemp, hids, hself]
    · have hiff : ∀ e ∈ st.entries,
          ((e.id ∈ ((st.entries.filter fun x =>
              x.metadata.source = filename).map (·.id)))
            ↔ e.metadata.source = filename) := by
        intro e he
        constructor
        · intro hin
          rcases List.mem_map.mp hin with ⟨e2, he2, hid⟩
          rcases List.mem_filter.mp he2 with ⟨he2mem, he2src⟩
          have : e2 = e := List.inj_on_of_nodup_map hnodup he2mem he hid
          rw [this] at he2src
          simpa using he2src
        · intro hsrc
          exact List.mem_map.mpr
            ⟨e, List.mem_filter.mpr ⟨he, by simpa using hsrc⟩, rfl⟩
      simp only [hok, hemp, hids, Bool.false_eq_true, if_false, ite_false, if_true]
      exact List.filter_congr fun e he =>
        decide_eq_decide.mpr (not_congr (hiff e he))

/-- C1: Deletion removes exactly the stored entries whose metadata
source equals the filename: for every working collection state with
distinct ids, after delete(filename) the collection contains no entry
whose metadata source equals the filename, and every entry whose
metadata source differs (in particular every image-description chunk,
whose source is an extracted image path) is still present unchanged,
the remaining entries being the original ones with the matching ones
filtered out. -/
theorem c1_delete_exactly_matching_source (filename : String) (st : ChromaState)
    (hnodup : (st.entries.map (·.id)).Nodup) (hok : st.failing = false) :
    ((delete_document_vectors filename st).1).entries
      = (st.entries.filter fun e => ¬ e.metadata.source = filename)
    ∧ (∀ e ∈ ((delete_document_vectors filename st).1).entries,
        ¬ e.metadata.source = filename)
    ∧ (∀ e ∈ st.entries, ¬ e.metadata.source = filename →
        e ∈ ((delete_document_vectors filename st).1).entries) := by
  have heq := delete_entries_eq_filter filename st hnodup hok
  refine ⟨heq, ?_, ?_⟩
  · intro e he
    rw [heq] at he
    have := (List.mem_filter.mp he).2
    simpa using this
  · intro e he hsrc
    rw [heq]
    exact List.mem_filter.mpr ⟨he, by simpa using hsrc⟩

/-- C1 witness: a collection holding one text chunk of a.pdf and one
image-description chunk whose source is an extracted image path. -/
theorem c1_delete_exactly_matching_source_witness :
    ((delete_document_vectors "a.pdf"
        ⟨[⟨"id1", ⟨"a.pdf", "text"⟩⟩,
          ⟨"id2", ⟨"uploaded_files/figure-1-1.jpg", "image_description"⟩⟩], false⟩).1).entries
      = [⟨"id2", ⟨"uploaded_files/figure-1-1.jpg", "image_description"⟩⟩] := by
  have h := (c1_delete_exactly_matching_source "a.pdf"
    ⟨[⟨"id1", ⟨"a.pdf", "text"⟩⟩,
      ⟨"id2", ⟨"uploaded_files/figure-1-1.jpg", "image_description"⟩⟩], false⟩
    (by decide) rfl).1
  rw [h]
  decide

/-- Stability step, inserted element keeps score c: inserting a pair
whose score is c places it in front of every later pair of score c,
because the insertion point is before the first pair of score at most
c. -/
theorem filter_orderedInsert_of_eq (a : String × Int) (l : List (String × Int))
    (c : Int) (ha : a.2 = c) :
    (List.orderedInsert scoreGE a l).filter (fun p => p.2 = c)
      = a :: l.filter fun p => p.2 = c := by
  induction l with
  | nil => simp [ha]
  | cons b l ih =>
    by_cases hr : scoreGE a b
    · simp [hr, List.filter, ha]
    · have hb : ¬ b.2 = c := by
        intro hbc
        exact hr (by unfold scoreGE; omega)
      simp [hr, List.filter, hb, ih]

/-- Stability step, inserted element has another score: the filter to
score c does not see the inserted pair. -/
theorem filter_orderedInsert_of_ne (a : String × Int) (l : List (String × Int))
    (c : Int) (ha : ¬ a.2 = c) :
    (List.orderedInsert scoreGE a l).filter (fun p => p.2 = c)
      = l.filter fun p => p.2 = c := by
  induction l with
  | nil => simp [ha]
  | cons b l ih =>
    by_cases hr : scoreGE a b
    · simp [hr, List.filter, ha]
    · simp [hr, List.filter, ih]

/-- Stability of the stable descending sort of rerank_docs: for every
score value, the pairs holding that score appear in the sorted list in
exactly their original order. -/
theorem filter_insertionSort_stable (l : List (String × Int)) (c : Int) :
    (List.insertionSort scoreGE l).filter (fun p => p.2 = c)
      = l.filter fun p => p.2 = c := by
  induction l with
  | nil => rfl
  | cons a l ih =>
    by_cases ha : a.2 = c
    · rw [List.insertionSort, filter_orderedInsert_of_eq _ _ _ ha, ih]
      simp [List.filter, ha]
    · rw [List.insertionSort, filter_orderedInsert_of_ne _ _ _ ha, ih]
      simp [List.filter, ha]

/-- Scores stored in the pairs are the cross-encoder scores of their
documents. -/
theorem rerankPairs_snd (score : String → String → Int) (question : String)
    (docs : List String) :
    ∀ p ∈ rerankPairs score question docs, p.2 = score question p.1 := by
  intro p hp
  have hmem : p ∈ docs.map fun d => (d, score question d) :=
    ((List.perm_insertionSort scoreGE _).mem_iff).mp hp
  rcases List.mem_map.mp hmem with ⟨d, _, rfl⟩
  rfl

/-- C2: For any query and any Stage-1 candidate list with at least 5
elements, re-ranking returns exactly 5 candidates, each scored pair
kept has cross-encoder score at least the score of every excluded pair,
and pairs with equal scores keep their Stage-1 relative order: for
every score value, filtering the stable-sorted pair list to that value
gives exactly the original pairs in their original order. -/
theorem c2_rerank_returns_top5 (score : String → String → Int) (question : String)
    (docs : List String) (h5 : 5 ≤ docs.length) :
    (rerank_docs score question docs).length = 5
    ∧ (∀ p ∈ (rerankPairs score question docs).take 5,
        ∀ pd ∈ (rerankPairs score question docs).drop 5, pd.2 ≤ p.2)
    ∧ (∀ c : Int, (rerankPairs score question docs).filter (fun p => p.2 = c)
        = (docs.map fun d => (d, score question d)).filter fun p => p.2 = c) := by
  have hlen : (rerankPairs score question docs).length = docs.length := by
    unfold rerankPairs
    rw [(List.perm_insertionSort scoreGE _).length_eq, List.length_map]
  refine ⟨?_, ?_, fun c => filter_insertionSort_stable _ c⟩
  · unfold rerank_docs
    rw [List.length_map, List.length_take, hlen]
    exact min_eq_left h5
  · have hsorted : List.Pairwise scoreGE (rerankPairs score question docs) :=
      List.sorted_insertionSort scoreGE (docs.map fun d => (d, score question d))
    rw [← List.take_append_drop 5 (rerankPairs score question docs)] at hsorted
    intro p hp pd hpd
    exact (List.pairwise_append.mp hsorted).2.2 p hp pd hpd

/-- C2 witness. -/
theorem c2_rerank_returns_top5_witness :
    (rerank_docs scoreByLength "q" ["a", "bb", "ccc", "dd", "e", "ffff"]).length = 5 :=
  (c2_rerank_returns_top5 scoreByLength "q" ["a", "bb", "ccc", "dd", "e", "ffff"]
    (by decide)).1

/-- C10: With fewer than 5 Stage-1 candidates (including zero) the
re-ranking stage returns all of them sorted descending by cross-encoder
score, without error and without padding: for every candidate list the
output has length min(n, 5), is drawn from the input (a sub-permutation),
is sorted descending by score, and when the input has at most 5
candidates the output is a permutation of the whole input. -/
theorem c10_rerank_short_input (score : String → String → Int) (question : String)
    (docs : List String) :
    (rerank_docs score question docs).length = min docs.length 5
    ∧ (rerank_docs score question docs).Subperm docs
    ∧ List.Pairwise (fun a b => score question b ≤ score question a)
        (rerank_docs score question docs)
    ∧ (docs.length ≤ 5 → (rerank_docs score question docs).Perm docs) := by
  have hlen : (rerankPairs score question docs).length = docs.length := by
    unfold rerankPairs
    rw [(List.perm_insertionSort scoreGE _).length_eq, List.length_map]
  have hfst : ((rerankPairs score question docs).map Prod.fst).Perm docs := by
    have h1 : ((rerankPairs score question docs).map Prod.fst).Perm
        ((docs.map fun d => (d, score question d)).map Prod.fst) :=
      (List.perm_insertionSort scoreGE _).map Prod.fst
    rw [List.map_map] at h1
    have h2 : (docs.map (Prod.fst ∘ fun d => (d, score question d))) = docs := by
      rw [show (Prod.fst ∘ fun d => (d, score question d)) = id from rfl, List.map_id]
    rwa [h2] at h1
  refine ⟨?_, ?_, ?_, ?_⟩
  · unfold rerank_docs
    rw [List.length_map, List.length_take, hlen, Nat.min_comm]
  · have hsub : (((rerankPairs score question docs).take 5).map Prod.fst).Sublist
        ((rerankPairs score question docs).map Prod.fst) :=
      (List.take_sublist 5 _).map Prod.fst
    exact (hsub.subperm).trans hfst.subperm
  · have hsorted : List.Pairwise scoreGE (rerankPairs score question docs) :=
      List.sorted_insertionSort scoreGE (docs.map fun d => (d, score question d))
    have htake : List.Pairwise scoreGE ((rerankPairs score question docs).take 5) :=
      List.Pairwise.sublist (List.take_sublist 5 _) hsorted
    have hsnd := rerankPairs_snd score question docs
    have htakemem : ∀ p ∈ (rerankPairs score question docs).take 5,
        p.2 = score question p.1 :=
      fun p hp => hsnd p ((List.take_sublist 5 _).subset hp)
    unfold rerank_docs
    rw [List.pairwise_map]
    refine htake.imp_of_mem fun {a b} ha hb hr => ?_
    rw [← htakemem a ha, ← htakemem b hb]
    exact hr
  · intro hshort
    unfold rerank_docs
    rw [List.take_of_length_le (by rw [hlen]; exact hshort)]
    exact hfst

/-- C10 witness. -/
theorem c10_rerank_short_input_witness :
    (rerank_docs scoreByLength "q" ["a", "bbb", "cc"]).Perm ["a", "bbb", "cc"] :=
  (c10_rerank_short_input scoreByLength "q" ["a", "bbb", "cc"]).2.2.2 (by decide)

/-- Tables of the tail are among the tables of the whole list. -/
theorem tableHtmls_mem_cons (e : PipelineElement) (es : List PipelineElement)
    (h : String) (hh : h ∈ tableHtmls es) : h ∈ tableHtmls (e :: es) := by
  cases e <;> simp [tableHtmls] at hh ⊢
  · exact Or.inr hh
  · exact hh
  · exact hh

/-- When every table summarization succeeds, the element loop succeeds
and its result decomposes element by element: each element contributes
exactly its own documents (a failed image contributing none) and the raw
text is the concatenation of the text elements. -/
theorem processElements_eq (s d : String → Except String String) (f : String)
    (es : List PipelineElement) (hok : ∀ h ∈ tableHtmls es, ∃ v, s h = .ok v) :
    processElements s d f es = .ok (es.flatMap (elementDocs s d f), rawTextOf es) := by
  induction es with
  | nil => rfl
  | cons e es ih =>
    have hoktail : ∀ h ∈ tableHtmls es, ∃ v, s h = .ok v :=
      fun h hh => hok h (tableHtmls_mem_cons e es h hh)
    cases e with
    | table html =>
      obtain ⟨v, hv⟩ := hok html (by simp [tableHtmls])
      simp [processElements, elementStep, elementDocs, rawTextOf, hv, ih hoktail]
    | image p =>
      cases hd : d p with
      | ok v =>
        simp [processElements, elementStep, elementDocs, rawTextOf, hd, ih hoktail]
      | error err =>
        simp [processElements, elementStep, elementDocs, rawTextOf, hd, ih hoktail]
    | textEl c =>
      simp [processElements, elementStep, elementDocs, rawTextOf, ih hoktail,
        String.append_assoc]

/-- When some table summarization fails, the element loop fails: the
error is not caught, so the whole ingestion aborts. -/
theorem processElements_error (s d : String → Except String String) (f : String) :
    ∀ es : List PipelineElement, (∃ h ∈ tableHtmls es, ∀ v, s h ≠ .ok v) →
    ∀ r, processElements s d f es ≠ .ok r := by
  intro es
  induction es with
  | nil =>
    intro hbad
    simp [tableHtmls] at hbad
  | cons e es ih =>
    rintro ⟨h, hmem, hne⟩ r hok
    cases e with
    | table html =>
      cases hs : s html with
      | error err => simp [processElements, elementStep, hs] at hok
      | ok v =>
        have hcase : h = html ∨ h ∈ tableHtmls es := by
          simpa [tableHtmls] using hmem
        rcases hcase with rfl | htail
        · exact hne v hs
        · simp only [processElements, elementStep, hs] at hok
          cases hrest : processElements s d f es with
          | error e2 => rw [hrest] at hok; exact Except.noConfusion hok
          | ok r2 => exact ih ⟨h, htail, hne⟩ r2 hrest
    | image p =>
      have htail : h ∈ tableHtmls es := by simpa [tableHtmls] using hmem
      cases hd : d p with
      | ok v =>
        simp only [processElements, elementStep, hd] at hok
        cases hrest : processElements s d f es with
        | error e2 => rw [hrest] at hok; exact Except.noConfusion hok
        | ok r2 => exact ih ⟨h, htail, hne⟩ r2 hrest
      | error err =>
        simp only [processElements, elementStep, hd] at hok
        cases hrest : processElements s d f es with
        | error e2 => rw [hrest] at hok; exact Except.noConfusion hok
        | ok r2 => exact ih ⟨h, htail, hne⟩ r2 hrest
    | textEl c =>
      have htail : h ∈ tableHtmls es := by simpa [tableHtmls] using hmem
      simp only [processElements, elementStep] at hok
      cases hrest : processElements s d f es with
      | error e2 => rw [hrest] at hok; exact Except.noConfusion hok
      | ok r2 => exact ih ⟨h, htail, hne⟩ r2 hrest

/-- C5: During ingestion, a failure of the table-summarization
capability aborts the whole document ingestion (the error propagates and
nothing is stored), whereas a failure while processing any single image
skips only that image: ingestion succeeds and the stored documents are
exactly the per-element contributions (every table summary, every
successfully described image, and all chunked text), so other chunks are
unaffected by the failed image. -/
theorem c5_table_error_fatal_image_error_skipped
    (summarize describe : String → Except String String)
    (splitter : String → List String) (filename : String)
    (elements : List PipelineElement) :
    ((∃ h ∈ tableHtmls elements, ∀ v, summarize h ≠ .ok v) →
      ∀ docs, process_and_store_document summarize describe splitter filename elements
        ≠ .ok docs)
    ∧ ((∀ h ∈ tableHtmls elements, ∃ v, summarize h = .ok v) →
        process_and_store_document summarize describe splitter filename elements
          = .ok (elements.flatMap (elementDocs summarize describe filename)
              ++ (splitter (rawTextOf elements)).map
                  fun chunk => ⟨chunk, ⟨filename, "text"⟩⟩)) := by
  constructor
  · intro hbad docs hok
    unfold process_and_store_document at hok
    cases hrest : processElements summarize describe filename elements with
    | error e2 => rw [hrest] at hok; exact Except.noConfusion hok
    | ok r2 =>
      exact processElements_error summarize describe filename elements hbad r2 hrest
  · intro hok
    unfold process_and_store_document
    rw [processElements_eq summarize describe filename elements hok]

/-- Table-summarization capability that always succeeds, for the C5
witness. -/
def summarizeOkW : String → Except String String :=
  fun h => .ok ("summary of " ++ h)

/-- Table-summarization capability that always fails, for the C5
witness. -/
def summarizeFailW : String → Except String String :=
  fun _ => .error "SummarizationError"

/-- Image-description capability failing on exactly one image, for the
C5 witness. -/
def describeW : String → Except String String :=
  fun p => if p = "img2.jpg" then .error "corrupt image" else .ok ("description of " ++ p)

/-- Trivial splitter for the C5 witness. -/
def splitterW : String → List String := fun s => [s]

/-- Concrete element list for the C5 witness: a table, two images of
which the second fails, and a text element. -/
def elementsW : List PipelineElement :=
  [.table "<table1>", .image "img1.jpg", .image "img2.jpg", .textEl "hello world"]

/-- C5 witness. -/
theorem c5_table_error_fatal_image_error_skipped_witness :
    (∀ docs, process_and_store_document summarizeFailW describeW splitterW
        "doc.pdf" elementsW ≠ .ok docs)
    ∧ process_and_store_document summarizeOkW describeW splitterW "doc.pdf" elementsW
      = .ok (elementsW.flatMap (elementDocs summarizeOkW describeW "doc.pdf")
          ++ (splitterW (rawTextOf elementsW)).map
              fun chunk => ⟨chunk, ⟨"doc.pdf", "text"⟩⟩) :=
  ⟨(c5_table_error_fatal_image_error_skipped summarizeFailW describeW splitterW
      "doc.pdf" elementsW).1
      ⟨"<table1>", by decide, fun v hv => Except.noConfusion hv⟩,
    (c5_table_error_fatal_image_error_skipped summarizeOkW describeW splitterW
      "doc.pdf" elementsW).2 (fun h _ => ⟨"summary of " ++ h, rfl⟩)⟩

/-- With enough fuel, every chunk the splitter produces has at most 750
characters. -/
theorem splitTextGo_chunk_le (fuel : Nat) :
    ∀ s : List Char, s.length ≤ fuel →
    ∀ chunk ∈ splitTextGo fuel s, chunk.length ≤ 750 := by
  induction fuel with
  | zero =>
    intro s hf chunk hc
    have hnil : s = [] := List.eq_nil_of_length_eq_zero (by omega)
    subst hnil
    simp [splitTextGo] at hc
    simp [hc]
  | succ fuel ih =>
    intro s hf chunk hc
    by_cases h750 : s.length ≤ 750
    · simp [splitTextGo, h750] at hc
      simpa [hc] using h750
    · simp only [splitTextGo, h750, if_false, ite_false, List.mem_cons] at hc
      rcases hc with rfl | hc
      · rw [List.length_take]
        omega
      · refine ih (s.drop 650) ?_ chunk hc
        rw [List.length_drop]
        omega

/-- With enough fuel, the first chunk is the whole text when it fits,
and its first 750 characters otherwise. -/
theorem splitTextGo_first_chunk (fuel : Nat) (s : List Char) (hf : s.length ≤ fuel) :
    (splitTextGo fuel s)[0]? = some (if s.length ≤ 750 then s else s.take 750) := by
  cases fuel with
  | zero =>
    have hnil : s = [] := List.eq_nil_of_length_eq_zero (by omega)
    subst hnil
    simp [splitTextGo]
  | succ fuel =>
    by_cases h750 : s.length ≤ 750 <;> simp [splitTextGo, h750]

/-- With enough fuel, every pair of consecutive chunks overlaps in
exactly 100 characters: the earlier chunk has exactly 750 characters,
its last 100 characters are the first 100 characters of the later
chunk, and the later chunk has at least 100 characters. -/
theorem splitTextGo_overlap (fuel : Nat) :
    ∀ s : List Char, s.length ≤ fuel →
    ∀ i : Nat, i + 1 < (splitTextGo fuel s).length →
    ∃ c1 c2, (splitTextGo fuel s)[i]? = some c1
      ∧ (splitTextGo fuel s)[i + 1]? = some c2
      ∧ c1.length = 750 ∧ c1.drop 650 = c2.take 100 ∧ 100 ≤ c2.length := by
  induction fuel with
  | zero =>
    intro s hf i hi
    simp [splitTextGo] at hi
  | succ fuel ih =>
    intro s hf i hi
    by_cases h750 : s.length ≤ 750
    · simp [splitTextGo, h750] at hi
    · have hdroplen : (s.drop 650).length ≤ fuel := by
        rw [List.length_drop]
        omega
      have heq : splitTextGo (fuel + 1) s
          = s.take 750 :: splitTextGo fuel (s.drop 650) := by
        simp [splitTextGo, h750]
      rw [heq] at hi ⊢
      cases i with
      | zero =>
        have hhead := splitTextGo_first_chunk fuel (s.drop 650) hdroplen
        by_cases hrem : (s.drop 650).length ≤ 750
        · rw [if_pos hrem] at hhead
          refine ⟨s.take 750, s.drop 650, by simp, by simpa using hhead, ?_, ?_, ?_⟩
          · rw [List.length_take]
            omega
          · rw [List.drop_take]
          · rw [List.length_drop]
            omega
        · rw [if_neg hrem] at hhead
          refine ⟨s.take 750, (s.drop 650).take 750, by simp, by simpa using hhead,
            ?_, ?_, ?_⟩
          · rw [List.length_take]
            omega
          · rw [List.drop_take, List.take_take]
            norm_num
          · rw [List.length_take, List.length_drop]
            omega
      | succ i =>
        have hi2 : i + 1 < (splitTextGo fuel (s.drop 650)).length := by
          simpa using hi
        obtain ⟨c1, c2, h1, h2, hlen1, hover, hlen2⟩ :=
          ih (s.drop 650) hdroplen i hi2
        exact ⟨c1, c2, by simpa using h1, by simpa using h2, hlen1, hover, hlen2⟩

/-- C6: Text chunking splits the concatenated raw text into windows of
target size 750 characters with 100-character overlap: every produced
chunk has length at most 750, and for every pair of consecutive chunks
the earlier one has exactly 750 characters whose last 100 equal the
first 100 characters of the later chunk, which itself has at least 100
characters, so consecutive chunks overlap in exactly 100 characters
whenever the text is long enough to produce more than one chunk. -/
theorem c6_chunk_size_and_overlap (s : List Char) :
    (∀ chunk ∈ split_text s, chunk.length ≤ 750)
    ∧ (∀ i : Nat, i + 1 < (split_text s).length →
        ∃ c1 c2, (split_text s)[i]? = some c1 ∧ (split_text s)[i + 1]? = some c2
          ∧ c1.length = 750 ∧ c1.drop 650 = c2.take 100 ∧ 100 ≤ c2.length) :=
  ⟨fun chunk hc => splitTextGo_chunk_le s.length s le_rfl chunk hc,
    fun i hi => splitTextGo_overlap s.length s le_rfl i hi⟩

set_option maxRecDepth 8000 in
/-- C6 witness: an 800-character text splits into two chunks that
overlap in exactly 100 characters. -/
theorem c6_chunk_size_and_overlap_witness :
    ∃ c1 c2, (split_text (List.replicate 800 'a'))[0]? = some c1
      ∧ (split_text (List.replicate 800 'a'))[1]? = some c2
      ∧ c1.length = 750 ∧ c1.drop 650 = c2.take 100 ∧ 100 ≤ c2.length :=
  (c6_chunk_size_and_overlap (List.replicate 800 'a')).2 0 (by decide)

end DockuChat
